import Mathlib

/-!
Shallow embedding of the redstorm_backend reconnaissance engine
(`tools/pkg/recon/amass.go`, `subdomain.go`, `whois.go`, and the
`enumeration` package's ffuf wrapper).  External process executions
(amass, theHarvester, httpx, curl, whois servers, ffuf) are modelled as
oracle inputs: the raw text they would have produced, plus availability
and error flags.  All text processing is translated from the Go source.
-/

/- ### Generic string helpers mirroring Go's strings package.
All are structural recursions over the character list, so that every
definition evaluates inside the kernel. -/

/-- Does `pat` occur as a contiguous run inside `l`? -/
def isInfixOfCh (pat : List Char) : List Char → Bool
  | [] => pat.isEmpty
  | c :: rest => pat.isPrefixOf (c :: rest) || isInfixOfCh pat rest

/-- Go `strings.Contains`. -/
def containsSubstr (s pat : String) : Bool :=
  isInfixOfCh pat.data s.data

/-- Go `strings.HasPrefix`. -/
def goHasPre (s p : String) : Bool :=
  p.data.isPrefixOf s.data

/-- Go `strings.HasSuffix`. -/
def goHasSuf (s p : String) : Bool :=
  p.data.isSuffixOf s.data

/-- Splitter on a character predicate: the core of `strings.Split` (for the
single-character separators used in this repository) and of
`strings.Fields`.  `acc` holds the current chunk, reversed. -/
def splitPAux (p : Char → Bool) : List Char → List Char → List String
  | [], acc => [String.mk acc.reverse]
  | x :: xs, acc =>
    if p x then String.mk acc.reverse :: splitPAux p xs []
    else splitPAux p xs (x :: acc)

/-- Go `strings.Split(s, sep)` for a one-character separator (the only
separators the repository splits on are "\n", "," and ":"). -/
def goSplitChar (c : Char) (s : String) : List String :=
  splitPAux (fun x => x = c) s.data []

/-- Go `strings.Fields`: whitespace-separated nonempty tokens. -/
def goFields (s : String) : List String :=
  (splitPAux (fun c => c.isWhitespace) s.data []).filter (fun t => t != "")

/-- Go `strings.TrimSpace`. -/
def goTrimSpace (s : String) : String :=
  String.mk (((s.data.dropWhile Char.isWhitespace).reverse.dropWhile
    Char.isWhitespace).reverse)

/-- Go `strings.Trim(tok, cutset)`: strip leading and trailing characters
belonging to the cutset. -/
def goTrimCutset (s : String) (cutset : List Char) : String :=
  String.mk (((s.data.dropWhile (fun c => cutset.contains c)).reverse.dropWhile
    (fun c => cutset.contains c)).reverse)

/-- Go `strings.TrimPrefix`. -/
def goStripPre (s p : String) : String :=
  if goHasPre s p then String.mk (s.data.drop p.data.length) else s

/-- Go `strings.TrimSuffix`. -/
def goStripSuf (s p : String) : String :=
  if goHasSuf s p then String.mk (s.data.take (s.data.length - p.data.length)) else s

/-- Go `strings.ToLower` (ASCII range, as used here). -/
def goLower (s : String) : String :=
  String.mk (s.data.map Char.toLower)

/-- Go `len(s)` (the repository only handles ASCII targets, where byte
length and character count coincide). -/
def goLen (s : String) : Nat :=
  s.data.length

/-- Go `strings.Join(elems, sep)`. -/
def goJoin (sep : String) : List String → String
  | [] => ""
  | [x] => x
  | x :: y :: rest => x ++ sep ++ goJoin sep (y :: rest)

/- ### amass.go : data types -/

/-- `SubdomainInfo` from amass.go. -/
structure SubdomainInfo where
  name : String
  ips : List String
  sources : List String
deriving Repr, DecidableEq

/-- `DebugInfo` from amass.go. -/
structure DebugInfo where
  rawOutput : List String
  parseErrors : List String
  totalLines : Nat
  parsedLines : Nat
deriving Repr, DecidableEq

/-- `AmassResult` from amass.go.  The Go `map[string]int` Sources field is
modelled as an association list (insertion ordered). -/
structure AmassResult where
  domain : String
  subdomains : List SubdomainInfo
  sources : List (String × Nat)
  count : Nat
  timestamp : String
  command : String
  mode : String
  status : String
  debug : DebugInfo
deriving Repr, DecidableEq

/-- Go `result.Sources[source]++` on a map: increment, inserting 1 if absent. -/
def incrKey : List (String × Nat) → String → List (String × Nat)
  | [], k => [(k, 1)]
  | (k', v) :: rest, k =>
    if k' = k then (k', v + 1) :: rest else (k', v) :: incrKey rest k

/-- The shared append action of amass.go: push a `SubdomainInfo` with the
given name and single source, bump the per-source counter, mark seen. -/
def appendSub (st : AmassResult × List String) (name source : String) :
    AmassResult × List String :=
  ({ st.1 with
      subdomains := st.1.subdomains ++ [⟨name, [], [source]⟩],
      sources := incrKey st.1.sources source },
   name :: st.2)

/-- The token branch of `parseAmassOut`: strip bracket decoration, then
append when the token is a fresh strict subdomain of the target. -/
def procToken (domain source : String) (st : AmassResult × List String)
    (rawTok : String) : AmassResult × List String :=
  let tok := goTrimCutset rawTok ['[', ']', '(', ')', '{', '}', '<', '>']
  if goHasSuf tok ("." ++ domain) && tok != domain && !(st.2.contains tok) then
    appendSub st tok source
  else st

/-- One scanner line of `parseAmassOut`.  Blank lines and the sentinel are
skipped before the ParsedLines counter; the whole-line suffix match takes
the direct branch (with `continue`), otherwise each field is tried. -/
def procLine (domain source : String) (st : AmassResult × List String)
    (rawLine : String) : AmassResult × List String :=
  let line := goTrimSpace rawLine
  if line = "" || containsSubstr line ("The enumeration has finished") then st
  else
    let st1 : AmassResult × List String :=
      ({ st.1 with debug := { st.1.debug with
          parsedLines := st.1.debug.parsedLines + 1 } }, st.2)
    if goHasSuf line ("." ++ domain) && line != domain then
      if !(st1.2.contains line) then appendSub st1 line source else st1
    else
      (goFields line).foldl (procToken domain source) st1

/-- `parseAmassOut` from amass.go: fold over the scanner's lines.  The Go
function also receives a `debug` flag it never reads. -/
def parseAmassOut (output domain source : String) (r : AmassResult)
    (seen : List String) (debug : Bool) : AmassResult × List String :=
  let _ := debug
  (goSplitChar '\n' output).foldl (procLine domain source) (r, seen)

/-- The fixed indicator vocabulary of `fallbackIndicators`. -/
def indicatorsList : List String :=
  ["www", "mail", "api", "admin", "portal", "secure", "cdn", "static",
   "app", "dev", "staging", "test"]

/-- One indicator step of `fallbackIndicators`. -/
def indStep (domain : String) (st : AmassResult × List String)
    (ind : String) : AmassResult × List String :=
  let sub := ind ++ "." ++ domain
  if !(st.2.contains sub) then appendSub st sub ("indicator-fallback") else st

/-- `fallbackIndicators` from amass.go. -/
def fallbackIndicators (domain : String) (r : AmassResult)
    (seen : List String) (debug : Bool) : AmassResult × List String :=
  let _ := debug
  indicatorsList.foldl (indStep domain) (r, seen)

/-- The amass argument vector built by `runAmassOnce`. -/
def amassArgs (domain : String) (passive : Bool) (timeout : Nat)
    (wordlist : String) : List String :=
  ["enum", "-d", domain] ++
  (if passive then ["-passive"]
   else ["-active", "-brute"] ++ (if wordlist != "" then ["-w", wordlist] else [])) ++
  ["-timeout", toString timeout]

/-- `runAmassOnce` from amass.go.  The external `amass` execution is an
oracle: `amassOut` is the combined output text and `amassErr` the error
string when the command failed (`none` = no error). -/
def runAmassOnce (domain : String) (passive : Bool) (timeout : Nat)
    (wordlist : String) (amassOut : String) (amassErr : Option String)
    (r : AmassResult) (seen : List String) (debug : Bool) :
    AmassResult × List String :=
  let args := amassArgs domain passive timeout wordlist
  let r :=
    if debug then
      { r with debug := { r.debug with
          rawOutput := r.debug.rawOutput ++
            ["Command: amass " ++ goJoin (" ") args,
             "Output:\n" ++ amassOut],
          totalLines := r.debug.totalLines + (goSplitChar '\n' amassOut).length } }
    else r
  if amassErr.isSome && amassOut = "" then
    (if debug then
       { r with debug := { r.debug with
           parseErrors := r.debug.parseErrors ++ [amassErr.getD ("")] } }
     else r, seen)
  else
    parseAmassOut amassOut domain ("amass")
      { r with command := goJoin (" ") args } seen debug

/-- The initial `AmassResult` literal of `performDebugAmass`. -/
def initAmassResult (domain : String) (passive : Bool) (timestamp : String) :
    AmassResult :=
  { domain := domain
    subdomains := []
    sources := []
    count := 0
    timestamp := timestamp
    command := ""
    mode := if passive then "passive" else "active"
    status := "running"
    debug := ⟨[], [], 0, 0⟩ }

/-- `performDebugAmass` from amass.go, with the external amass run as an
oracle input. -/
def performDebugAmass (domain : String) (passive : Bool) (timeout : Nat)
    (wordlist : String) (debug : Bool) (timestamp : String)
    (amassOut : String) (amassErr : Option String) : AmassResult :=
  let st := runAmassOnce domain passive timeout wordlist amassOut amassErr
    (initAmassResult domain passive timestamp) [] debug
  let st2 :=
    if st.1.subdomains.length = 0 then
      fallbackIndicators domain st.1 st.2 debug
    else st
  { st2.1 with status := "completed", count := st2.1.subdomains.length }

/- ### subdomain.go : validator, liveness cascade, enumeration worker.
Go slices distinguish `nil` from an allocated empty slice (JSON `null`
versus `[]`); slice-valued results that can be `nil` are modelled as
`Option (List String)` with `none` for `nil`. -/

/-- `isValidDomain` from subdomain.go. -/
def isValidDomain (d : String) : Bool :=
  if goLen d = 0 || 253 < goLen d then false
  else if d.data.any (fun c => c = ' ' || c = '\t') then false
  else if !(containsSubstr d (".")) then false
  else if goHasPre d (".") || goHasSuf d (".") || goHasPre d ("-") || goHasSuf d ("-") then
    false
  else true

/-- The accepted-status-codes set of `probeWithCurl`: split the flag on
commas and trim each entry. -/
def wantCodes (codes : String) : List String :=
  (goSplitChar ',' codes).map goTrimSpace

/-- The per-host loop of `probeWithCurl`: skip hosts failing validation,
keep a host when its individually observed status code is wanted.  The
external curl invocation is the oracle `curl`. -/
def curlFilter (want : List String) (curl : String → String) :
    List String → List String
  | [] => []
  | h :: hs =>
    if !(isValidDomain h) then curlFilter want curl hs
    else if want.contains (curl h) then h :: curlFilter want curl hs
    else curlFilter want curl hs

/-- `probeWithCurl` from subdomain.go.  The Go `alive` slice starts `nil`
and only `append` makes it non-nil, so an all-filtered input yields `nil`
(`none`), never an allocated empty slice. -/
def probeWithCurl (hosts : List String) (codes : String)
    (curl : String → String) : Option (List String) :=
  let alive := curlFilter (wantCodes codes) curl hosts
  if alive.isEmpty then none else some alive

/-- Extraction of one httpx output line: trim, drop blanks, take the first
field, strip the scheme and a trailing slash. -/
def httpxLineHost (l : String) : Option String :=
  let line := goTrimSpace l
  if line = "" then none
  else
    match goFields line with
    | [] => none
    | u0 :: _ => some (goStripSuf (goStripPre u0 ("https://")) ("/"))

/-- `probeWithHttpx` from subdomain.go.  `httpxAvail` is the
`exec.LookPath` oracle and `httpxOut` the batch tool's raw output. -/
def probeWithHttpx (hosts : List String) (codes : String)
    (httpxAvail : Bool) (httpxOut : String) (curl : String → String) :
    Option (List String) :=
  if hosts.isEmpty then some []
  else if !httpxAvail then probeWithCurl hosts codes curl
  else
    let alive := (goSplitChar '\n' httpxOut).filterMap httpxLineHost
    if alive.isEmpty && !hosts.isEmpty then probeWithCurl hosts codes curl
    else some alive

/-- `SubdomainResult` from subdomain.go. -/
structure SubdomainResult where
  domain : String
  subdomains : Option (List String)
  count : Nat
deriving Repr, DecidableEq

/-- `performSubdomainEnum` from subdomain.go.  External effects are
oracles: binary availability, the temp-dir error (if any), and the merged
`sort -u` output of the three parallel probes. -/
def performSubdomainEnum (domain : String) (codes : String)
    (harvAvail reconAvail : Bool) (tmpErr : Option String)
    (mergedRaw : String) (httpxAvail : Bool) (httpxOut : String)
    (curl : String → String) : SubdomainResult :=
  if !harvAvail then ⟨domain, some ["error: theHarvester not in PATH"], 0⟩
  else if !reconAvail then ⟨domain, some ["error: recon-ng not in PATH"], 0⟩
  else
    match tmpErr with
    | some msg => ⟨domain, some ["temp-dir-error: " ++ msg], 0⟩
    | none =>
      let lines := goSplitChar '\n' (goTrimSpace mergedRaw)
      let alive := probeWithHttpx lines codes httpxAvail httpxOut curl
      ⟨domain, alive, (alive.getD []).length⟩

/- ### enumeration package : ffuf path brute-force -/

/-- `FuffResult` from the enumeration package; `pathItem` only wraps a
name, so the subdomain list is a list of names. -/
structure FuffResult where
  domain : String
  subdomains : List String
  count : Nat
deriving Repr, DecidableEq

/-- `parseFfufCSVLines` from the enumeration package. -/
def parseFfufCSVLines (csv : String) : List String :=
  (goSplitChar '\n' csv).foldl
    (fun hits l =>
      let line := goTrimSpace l
      if line = "" || goHasPre line ("input") then hits
      else
        match goSplitChar ',' line with
        | [] => hits
        | p0 :: _ =>
          if containsSubstr p0 ("error:") then hits else hits ++ [p0])
    []

/-- `performPathBrute` from the enumeration package.  `ffufAvail` is the
`exec.LookPath` oracle; `ffufOut` is `none` when the ffuf execution
returned an error, otherwise the captured stdout. -/
def performPathBrute (domain : String) (ffufAvail : Bool)
    (ffufOut : Option String) : FuffResult :=
  if !ffufAvail then
    ⟨domain, ["error: ffuf not installed or not in PATH"], 0⟩
  else
    match ffufOut with
    | none => ⟨domain, [], 0⟩
    | some out =>
      let paths := parseFfufCSVLines out
      ⟨domain, paths, paths.length⟩

/- ### whois.go : result record, date parsing, normalization -/

/-- `Contact` from whois.go (never populated by the parser). -/
structure Contact where
  name : String := ""
  organization : String := ""
  email : String := ""
  phone : String := ""
  country : String := ""
deriving Repr, DecidableEq

/-- `Contacts` from whois.go. -/
structure Contacts where
  registrant : Contact := {}
  admin : Contact := {}
  tech : Contact := {}
deriving Repr, DecidableEq

/-- `WhoisResult` from whois.go. -/
structure WhoisResult where
  domain : String
  registrar : String := ""
  creationDate : String := ""
  expirationDate : String := ""
  updatedDate : String := ""
  nameServers : List String := []
  status : List String := []
  contacts : Contacts := {}
  dnssec : String := ""
  raw : String := ""
deriving Repr, DecidableEq

/-- `anyOf` from whois.go: does the key contain any of the needles? -/
def anyOf (key : String) (needles : List String) : Bool :=
  needles.any (fun n => containsSubstr key n)

/-- A calendar date as extracted by Go's `time.Parse` for the layouts of
`parseDate` (only the date part matters for the output format). -/
structure GoDate where
  year : Nat
  month : Nat
  day : Nat
deriving Repr, DecidableEq

/-- Read exactly `n` decimal digits (Go's fixed-width numeric layout
elements such as "01", "02", "04", "05", "2006"). -/
def readFixed : Nat → Nat → List Char → Option (Nat × List Char)
  | 0, acc, rest => some (acc, rest)
  | n + 1, acc, c :: rest =>
    if c.isDigit then readFixed n (acc * 10 + (c.toNat - 48)) rest else none
  | _ + 1, _, [] => none

/-- Read one or two decimal digits (Go's non-fixed numeric element "15",
which greedily takes a second digit when present). -/
def readFlex2 : List Char → Option (Nat × List Char)
  | [] => none
  | c :: rest =>
    if c.isDigit then
      match rest with
      | c2 :: rest2 =>
        if c2.isDigit then some ((c.toNat - 48) * 10 + (c2.toNat - 48), rest2)
        else some (c.toNat - 48, rest)
      | [] => some (c.toNat - 48, [])
    else none

/-- Consume one expected literal character. -/
def expectCh (c : Char) : List Char → Option (List Char)
  | [] => none
  | x :: rest => if x = c then some rest else none

/-- Go's abbreviated month names, matched case-insensitively ("Jan"). -/
def monthAbbrevs : List String :=
  ["jan", "feb", "mar", "apr", "may", "jun",
   "jul", "aug", "sep", "oct", "nov", "dec"]

/-- Read a three-letter month name (layout element "Jan"). -/
def readMonthName : List Char → Option (Nat × List Char)
  | a :: b :: c :: rest =>
    let key := String.mk [a.toLower, b.toLower, c.toLower]
    match monthAbbrevs.indexOf? key with
    | some i => some (i + 1, rest)
    | none => none
  | _ => none

/-- Gregorian leap-year rule, as in Go's `time` package. -/
def isLeapYear (y : Nat) : Bool :=
  y % 4 = 0 && (y % 100 != 0 || y % 400 = 0)

/-- Days in a month, as validated by Go's `time.Parse`. -/
def daysInMonth (y m : Nat) : Nat :=
  if m = 2 then (if isLeapYear y then 29 else 28)
  else if m = 4 || m = 6 || m = 9 || m = 11 then 30
  else 31

/-- The range checks Go's `time.Parse` applies before accepting a value. -/
def mkGoDate (y mo d h mi s : Nat) : Option GoDate :=
  if 1 ≤ mo && mo ≤ 12 && 1 ≤ d && d ≤ daysInMonth y mo
      && h < 24 && mi < 60 && s < 60 then
    some ⟨y, mo, d⟩
  else none

/-- Require the input to be fully consumed (Go rejects trailing text). -/
def finishDate (d : Option GoDate) : List Char → Option GoDate
  | [] => d
  | _ :: _ => none

/-- Layout "2006-01-02T15:04:05Z". -/
def parseLayoutISO (s : String) : Option GoDate :=
  match readFixed 4 0 s.data with
  | none => none
  | some (y, r1) =>
    match expectCh '-' r1 with
    | none => none
    | some r2 =>
      match readFixed 2 0 r2 with
      | none => none
      | some (mo, r3) =>
        match expectCh '-' r3 with
        | none => none
        | some r4 =>
          match readFixed 2 0 r4 with
          | none => none
          | some (d, r5) =>
            match expectCh 'T' r5 with
            | none => none
            | some r6 =>
              match readFlex2 r6 with
              | none => none
              | some (h, r7) =>
                match expectCh ':' r7 with
                | none => none
                | some r8 =>
                  match readFixed 2 0 r8 with
                  | none => none
                  | some (mi, r9) =>
                    match expectCh ':' r9 with
                    | none => none
                    | some r10 =>
                      match readFixed 2 0 r10 with
                      | none => none
                      | some (sec, r11) =>
                        match expectCh 'Z' r11 with
                        | none => none
                        | some r12 => finishDate (mkGoDate y mo d h mi sec) r12

/-- Layout "2006-01-02 15:04:05". -/
def parseLayoutDateTime (s : String) : Option GoDate :=
  match readFixed 4 0 s.data with
  | none => none
  | some (y, r1) =>
    match expectCh '-' r1 with
    | none => none
    | some r2 =>
      match readFixed 2 0 r2 with
      | none => none
      | some (mo, r3) =>
        match expectCh '-' r3 with
        | none => none
        | some r4 =>
          match readFixed 2 0 r4 with
          | none => none
          | some (d, r5) =>
            match expectCh ' ' r5 with
            | none => none
            | some r6 =>
              match readFlex2 r6 with
              | none => none
              | some (h, r7) =>
                match expectCh ':' r7 with
                | none => none
                | some r8 =>
                  match readFixed 2 0 r8 with
                  | none => none
                  | some (mi, r9) =>
                    match expectCh ':' r9 with
                    | none => none
                    | some r10 =>
                      match readFixed 2 0 r10 with
                      | none => none
                      | some (sec, r11) => finishDate (mkGoDate y mo d h mi sec) r11

/-- Layout "2006-01-02". -/
def parseLayoutDateOnly (s : String) : Option GoDate :=
  match readFixed 4 0 s.data with
  | none => none
  | some (y, r1) =>
    match expectCh '-' r1 with
    | none => none
    | some r2 =>
      match readFixed 2 0 r2 with
      | none => none
      | some (mo, r3) =>
        match expectCh '-' r3 with
        | none => none
        | some r4 =>
          match readFixed 2 0 r4 with
          | none => none
          | some (d, r5) => finishDate (mkGoDate y mo d 0 0 0) r5

/-- Layout "02-Jan-2006". -/
def parseLayoutDMonY (s : String) : Option GoDate :=
  match readFixed 2 0 s.data with
  | none => none
  | some (d, r1) =>
    match expectCh '-' r1 with
    | none => none
    | some r2 =>
      match readMonthName r2 with
      | none => none
      | some (mo, r3) =>
        match expectCh '-' r3 with
        | none => none
        | some r4 =>
          match readFixed 4 0 r4 with
          | none => none
          | some (y, r5) => finishDate (mkGoDate y mo d 0 0 0) r5

/-- Layout "2006.01.02". -/
def parseLayoutDotted (s : String) : Option GoDate :=
  match readFixed 4 0 s.data with
  | none => none
  | some (y, r1) =>
    match expectCh '.' r1 with
    | none => none
    | some r2 =>
      match readFixed 2 0 r2 with
      | none => none
      | some (mo, r3) =>
        match expectCh '.' r3 with
        | none => none
        | some r4 =>
          match readFixed 2 0 r4 with
          | none => none
          | some (d, r5) => finishDate (mkGoDate y mo d 0 0 0) r5

/-- Layout "02/01/2006" (day/month/year). -/
def parseLayoutSlashed (s : String) : Option GoDate :=
  match readFixed 2 0 s.data with
  | none => none
  | some (d, r1) =>
    match expectCh '/' r1 with
    | none => none
    | some r2 =>
      match readFixed 2 0 r2 with
      | none => none
      | some (mo, r3) =>
        match expectCh '/' r3 with
        | none => none
        | some r4 =>
          match readFixed 4 0 r4 with
          | none => none
          | some (y, r5) => finishDate (mkGoDate y mo d 0 0 0) r5

/-- The ordered format list of `parseDate` in whois.go. -/
def dateFormats : List (String → Option GoDate) :=
  [parseLayoutISO, parseLayoutDateTime, parseLayoutDateOnly,
   parseLayoutDMonY, parseLayoutDotted, parseLayoutSlashed]

/-- Try an ordered list of parsers; the first success wins. -/
def firstParse : List (String → Option GoDate) → String → Option GoDate
  | [], _ => none
  | f :: fs, s =>
    match f s with
    | some d => some d
    | none => firstParse fs s

/-- Zero-pad to two digits (Go layout "01"/"02" on output). -/
def pad2 (n : Nat) : String :=
  if n < 10 then "0" ++ toString n else toString n

/-- Zero-pad to four digits (Go layout "2006" on output). -/
def pad4 (n : Nat) : String :=
  if n < 10 then "000" ++ toString n
  else if n < 100 then "00" ++ toString n
  else if n < 1000 then "0" ++ toString n
  else toString n

/-- Go `t.Format("2006-01-02")`. -/
def formatYMD (d : GoDate) : String :=
  pad4 d.year ++ "-" ++ pad2 d.month ++ "-" ++ pad2 d.day

/-- `parseDate` from whois.go. -/
def parseDate (dateStr : String) : String :=
  match firstParse dateFormats dateStr with
  | some t => formatYMD t
  | none => dateStr

/-- The switch statement of `performWhoisLookup`'s parse loop: classify a
key/value pair into the result record.  Go evaluates the cases in order;
a case whose condition fails (for example because the field is already
populated) falls through to the later cases. -/
def classifyLine (r : WhoisResult) (key value : String) : WhoisResult :=
  if containsSubstr key ("registrar") && r.registrar == "" then
    { r with registrar := value }
  else if anyOf key ["created", "creation date", "registered on"]
      && r.creationDate == "" then
    { r with creationDate := parseDate value }
  else if anyOf key ["expires", "expiration", "expiry date", "registry expiry"]
      && r.expirationDate == "" then
    { r with expirationDate := parseDate value }
  else if anyOf key ["updated", "modified", "changed"]
      && r.updatedDate == "" then
    { r with updatedDate := parseDate value }
  else if anyOf key ["name server", "nserver"]
      && !(goLower value == "unsigned") then
    if r.nameServers.contains value then r
    else { r with nameServers := r.nameServers ++ [value] }
  else if goHasPre key ("status") && !(r.status.contains value) then
    { r with status := r.status ++ [value] }
  else if anyOf key ["dnssec", "ds data"] then
    { r with dnssec := value }
  else r

/-- One line of `performWhoisLookup`'s parse loop: trim, require a colon,
split on the first colon, normalize the key, skip empty values. -/
def whoisParseLine (r : WhoisResult) (rawLine : String) : WhoisResult :=
  let line := goTrimSpace rawLine
  if line = "" || !(containsSubstr line (":")) then r
  else
    let parts := goSplitChar ':' line
    let key := goTrimSpace (goLower (parts.headD ("")))
    let value := goTrimSpace (goJoin (":") parts.tail)
    if value = "" then r
    else classifyLine r key value

/-- `fallbackWhois` from whois.go: walk the fixed server list, returning
the first response that is error-free and nonblank.  Each element of
`tcpResults` is one server's `tcpWhois` outcome (`none` = error). -/
def fallbackWhois : List (Option String) → Option String
  | [] => none
  | res :: rest =>
    match res with
    | some raw => if goTrimSpace raw != "" then some raw else fallbackWhois rest
    | none => fallbackWhois rest

/-- `performWhoisLookup` from whois.go.  The library call and the TCP
fallbacks are oracles: `libRaw`/`libErr` are the `whois.Whois` result, and
`tcpResults` the per-server `tcpWhois` outcomes. -/
def performWhoisLookup (domain : String) (libRaw : String) (libErr : Bool)
    (tcpResults : List (Option String)) (debug : Bool) : WhoisResult :=
  let base : WhoisResult := { domain := domain }
  let raw :=
    if libErr || goTrimSpace libRaw = "" then (fallbackWhois tcpResults).getD ("")
    else libRaw
  let r := if debug then { base with raw := raw } else base
  if goTrimSpace raw = "" then
    { r with raw := "empty response from all whois sources" }
  else
    (goSplitChar '\n' raw).foldl whoisParseLine r

/- ### Proof helpers -/

/-- A predicate preserved by every step of a fold is preserved by the fold. -/
theorem foldl_pres {α σ : Type} {P : σ → Prop} {f : σ → α → σ}
    (h : ∀ s a, P s → P (f s a)) : ∀ (l : List α) (s : σ), P s → P (l.foldl f s) := by
  intro l
  induction l with
  | nil => intro s hs; exact hs
  | cons x xs ih => intro s hs; exact ih (f s x) (h s x hs)

/-- Boolean membership test versus propositional membership. -/
theorem contains_true_iff (l : List String) (a : String) :
    l.contains a = true ↔ a ∈ l := List.elem_iff

/-- Negative boolean membership test versus propositional membership. -/
theorem contains_false_iff (l : List String) (a : String) :
    l.contains a = false ↔ a ∉ l := by
  rw [← Bool.not_eq_true]
  exact not_congr (contains_true_iff l a)

/-- Appending the same ".domain" suffix to two different prefixes cannot
collide. -/
theorem appendDot_inj (a b d : String) (h : a ++ "." ++ d = b ++ "." ++ d) :
    a = b := by
  have h2 : (a.data ++ ['.']) ++ d.data = (b.data ++ ['.']) ++ d.data := by
    have h1 := congrArg String.data h
    simpa using h1
  have h3 := List.append_cancel_right h2
  have h4 := List.append_cancel_right h3
  cases a; cases b
  exact congrArg String.mk h4

/- ### Preservation of state predicates by the amass merge steps -/

/-- `procToken` preserves any predicate that survives a guarded append. -/
theorem procToken_pres (P : AmassResult × List String → Prop)
    (happ : ∀ st name source, P st → st.2.contains name = false →
      P (appendSub st name source))
    (domain source : String) (st : AmassResult × List String) (tok : String)
    (h : P st) : P (procToken domain source st tok) := by
  unfold procToken
  dsimp only
  split
  · next hc =>
    simp only [Bool.and_eq_true, Bool.not_eq_true'] at hc
    exact happ st _ source h hc.2
  · exact h

/-- `procLine` preserves any predicate that survives a ParsedLines bump
and a guarded append. -/
theorem procLine_pres (P : AmassResult × List String → Prop)
    (hpl : ∀ (r : AmassResult) (seen : List String) (n : Nat),
      P (r, seen) → P ({ r with debug := { r.debug with parsedLines := n } }, seen))
    (happ : ∀ st name source, P st → st.2.contains name = false →
      P (appendSub st name source))
    (domain source : String) (st : AmassResult × List String) (x : String)
    (h : P st) : P (procLine domain source st x) := by
  unfold procLine
  dsimp only
  have h1 : P ({ st.1 with debug := { st.1.debug with
      parsedLines := st.1.debug.parsedLines + 1 } }, st.2) :=
    hpl st.1 st.2 _ h
  split
  · exact h
  · split
    · split
      · next hc =>
        rw [Bool.not_eq_true'] at hc
        exact happ _ _ source h1 hc
      · exact h1
    · exact foldl_pres (fun s a hs => procToken_pres P happ domain source s a hs) _ _ h1

/-- `parseAmassOut` preserves any predicate that survives a ParsedLines
bump and a guarded append. -/
theorem parseAmassOut_pres (P : AmassResult × List String → Prop)
    (hpl : ∀ (r : AmassResult) (seen : List String) (n : Nat),
      P (r, seen) → P ({ r with debug := { r.debug with parsedLines := n } }, seen))
    (happ : ∀ st name source, P st → st.2.contains name = false →
      P (appendSub st name source))
    (output domain source : String) (r : AmassResult) (seen : List String)
    (debug : Bool) (h : P (r, seen)) :
    P (parseAmassOut output domain source r seen debug) := by
  unfold parseAmassOut
  exact foldl_pres (fun s a hs => procLine_pres P hpl happ domain source s a hs) _ _ h

/-- `indStep` preserves any predicate that survives a guarded append. -/
theorem indStep_pres (P : AmassResult × List String → Prop)
    (happ : ∀ st name source, P st → st.2.contains name = false →
      P (appendSub st name source))
    (domain : String) (st : AmassResult × List String) (ind : String)
    (h : P st) : P (indStep domain st ind) := by
  unfold indStep
  dsimp only
  split
  · next hc =>
    rw [Bool.not_eq_true'] at hc
    exact happ _ _ _ h hc
  · exact h

/-- `fallbackIndicators` preserves any predicate that survives a guarded
append. -/
theorem fallbackIndicators_pres (P : AmassResult × List String → Prop)
    (happ : ∀ st name source, P st → st.2.contains name = false →
      P (appendSub st name source))
    (domain : String) (r : AmassResult) (seen : List String) (debug : Bool)
    (h : P (r, seen)) : P (fallbackIndicators domain r seen debug) := by
  unfold fallbackIndicators
  exact foldl_pres (fun s a hs => indStep_pres P happ domain s a hs) _ _ h

/-- `runAmassOnce` preserves any predicate that additionally survives
arbitrary rewrites of the Debug record and of the Command field. -/
theorem runAmassOnce_pres (P : AmassResult × List String → Prop)
    (hdbg : ∀ (r : AmassResult) (seen : List String) (dbg : DebugInfo),
      P (r, seen) → P ({ r with debug := dbg }, seen))
    (hcmd : ∀ (r : AmassResult) (seen : List String) (c : String),
      P (r, seen) → P ({ r with command := c }, seen))
    (happ : ∀ st name source, P st → st.2.contains name = false →
      P (appendSub st name source))
    (domain : String) (passive : Bool) (timeout : Nat) (wordlist : String)
    (amassOut : String) (amassErr : Option String) (r : AmassResult)
    (seen : List String) (debug : Bool) (h : P (r, seen)) :
    P (runAmassOnce domain passive timeout wordlist amassOut amassErr r seen debug) := by
  have hpl : ∀ (r : AmassResult) (seen : List String) (n : Nat),
      P (r, seen) → P ({ r with debug := { r.debug with parsedLines := n } }, seen) :=
    fun r seen n hh => hdbg r seen _ hh
  cases debug with
  | false =>
    simp only [runAmassOnce, Bool.false_eq_true, if_false]
    split
    · exact h
    · exact parseAmassOut_pres P hpl happ _ _ _ _ _ _ (hcmd _ _ _ h)
  | true =>
    simp only [runAmassOnce, if_true]
    split
    · exact hdbg _ _ _ (hdbg _ _ _ h)
    · apply parseAmassOut_pres P hpl happ
      exact hcmd _ _ _ (hdbg r seen
        { rawOutput := r.debug.rawOutput ++
            ["Command: amass " ++ goJoin (" ") (amassArgs domain passive timeout wordlist),
             "Output:\n" ++ amassOut],
          parseErrors := r.debug.parseErrors,
          totalLines := r.debug.totalLines + (goSplitChar '\n' amassOut).length,
          parsedLines := r.debug.parsedLines } h)

/-- `runAmassOnce` with debugging off also preserves predicates that only
tolerate ParsedLines rewrites of the Debug record. -/
theorem runAmassOnce_pres_nodebug (P : AmassResult × List String → Prop)
    (hpl : ∀ (r : AmassResult) (seen : List String) (n : Nat),
      P (r, seen) → P ({ r with debug := { r.debug with parsedLines := n } }, seen))
    (hcmd : ∀ (r : AmassResult) (seen : List String) (c : String),
      P (r, seen) → P ({ r with command := c }, seen))
    (happ : ∀ st name source, P st → st.2.contains name = false →
      P (appendSub st name source))
    (domain : String) (passive : Bool) (timeout : Nat) (wordlist : String)
    (amassOut : String) (amassErr : Option String) (r : AmassResult)
    (seen : List String) (h : P (r, seen)) :
    P (runAmassOnce domain passive timeout wordlist amassOut amassErr r seen false) := by
  simp only [runAmassOnce, Bool.false_eq_true, if_false]
  split
  · exact h
  · exact parseAmassOut_pres P hpl happ _ _ _ _ _ _ (hcmd _ _ _ h)

/-- Assembly: a state predicate that survives the run, the indicator
fallback and the final status/count stamping yields a property of the
`performDebugAmass` result. -/
theorem performDebugAmass_pres (P : AmassResult × List String → Prop)
    (Q : AmassResult → Prop)
    (domain : String) (passive : Bool) (timeout : Nat) (wordlist : String)
    (debug : Bool) (timestamp amassOut : String) (amassErr : Option String)
    (happ : ∀ st name source, P st → st.2.contains name = false →
      P (appendSub st name source))
    (hrun : ∀ (r : AmassResult) (seen : List String), P (r, seen) →
      P (runAmassOnce domain passive timeout wordlist amassOut amassErr r seen debug))
    (hinit : P (initAmassResult domain passive timestamp, []))
    (hfinal : ∀ st : AmassResult × List String, P st →
      Q { st.1 with status := "completed", count := st.1.subdomains.length }) :
    Q (performDebugAmass domain passive timeout wordlist debug timestamp amassOut amassErr) := by
  unfold performDebugAmass
  dsimp only
  apply hfinal
  split
  · exact fallbackIndicators_pres P happ _ _ _ _ (hrun _ _ hinit)
  · exact hrun _ _ hinit

/-- Sum of the per-source counters of the Sources map. -/
def sumVals (m : List (String × Nat)) : Nat :=
  (m.map Prod.snd).sum

/-- Incrementing one source counter raises the total by exactly one. -/
theorem sumVals_incrKey (m : List (String × Nat)) (k : String) :
    sumVals (incrKey m k) = sumVals m + 1 := by
  induction m with
  | nil => rfl
  | cons p rest ih =>
    obtain ⟨k', v⟩ := p
    unfold incrKey
    split
    · simp [sumVals]
      omega
    · simp [sumVals] at ih ⊢
      omega

/-- The dedup invariant: entity names are duplicate-free and every listed
name is marked in the seen set. -/
def InvNodup (st : AmassResult × List String) : Prop :=
  (st.1.subdomains.map SubdomainInfo.name).Nodup ∧
  ∀ n ∈ st.1.subdomains.map SubdomainInfo.name, st.2.contains n = true

/-- A guarded append preserves the dedup invariant. -/
theorem appendSub_invNodup (st : AmassResult × List String)
    (name source : String) (h : InvNodup st) (hns : st.2.contains name = false) :
    InvNodup (appendSub st name source) := by
  obtain ⟨hnd, hmem⟩ := h
  have hnotin : name ∉ st.1.subdomains.map SubdomainInfo.name := by
    intro hin
    have := hmem name hin
    rw [hns] at this
    cases this
  constructor
  · simp only [appendSub, List.map_append, List.map_cons, List.map_nil]
    rw [List.nodup_append]
    refine ⟨hnd, List.nodup_singleton _, ?_⟩
    intro a ha hb
    rw [List.mem_singleton] at hb
    subst hb
    exact hnotin ha
  · intro n hn
    simp only [appendSub, List.map_append, List.map_cons, List.map_nil,
      List.mem_append, List.mem_singleton] at hn
    rcases hn with hn | hn
    · have := hmem n hn
      simp only [appendSub, List.contains_cons]
      rw [this]
      simp
    · subst hn
      simp only [appendSub, List.contains_cons]
      simp

/-- C2: For every AggregatedResult produced by the subdomain aggregation
(`performDebugAmass`, including `parseAmassOut` and `fallbackIndicators`),
no entity appears twice in the result's entity sequence, identity being the
exact subdomain name string. -/
theorem spec_c2_nodup (domain : String) (passive : Bool) (timeout : Nat)
    (wordlist : String) (debug : Bool) (timestamp amassOut : String)
    (amassErr : Option String) :
    ((performDebugAmass domain passive timeout wordlist debug timestamp
        amassOut amassErr).subdomains.map SubdomainInfo.name).Nodup := by
  apply performDebugAmass_pres InvNodup
    (fun res => (res.subdomains.map SubdomainInfo.name).Nodup)
    domain passive timeout wordlist debug timestamp amassOut amassErr
  · exact appendSub_invNodup
  · intro r seen h
    apply runAmassOnce_pres InvNodup
    · intro r seen dbg hh
      exact hh
    · intro r seen c hh
      exact hh
    · exact appendSub_invNodup
    · exact h
  · constructor
    · simp [initAmassResult]
    · intro n hn
      simp [initAmassResult] at hn
  · intro st h
    exact h.1

/-- The counting invariant: the Sources counters sum to the number of
entities. -/
def InvCount (st : AmassResult × List String) : Prop :=
  sumVals st.1.sources = st.1.subdomains.length

/-- A guarded append preserves the counting invariant. -/
theorem appendSub_invCount (st : AmassResult × List String)
    (name source : String) (h : InvCount st) (_ : st.2.contains name = false) :
    InvCount (appendSub st name source) := by
  unfold InvCount at h ⊢
  simp only [appendSub, sumVals_incrKey, List.length_append, List.length_cons,
    List.length_nil]
  omega

/-- C10: for every invocation of `performDebugAmass`, Count equals the
length of the Subdomains sequence, and the per-source counts in the
Sources map sum to the length of the Subdomains sequence. -/
theorem spec_c10_counts (domain : String) (passive : Bool) (timeout : Nat)
    (wordlist : String) (debug : Bool) (timestamp amassOut : String)
    (amassErr : Option String) :
    (performDebugAmass domain passive timeout wordlist debug timestamp
        amassOut amassErr).count
      = (performDebugAmass domain passive timeout wordlist debug timestamp
        amassOut amassErr).subdomains.length ∧
    sumVals (performDebugAmass domain passive timeout wordlist debug timestamp
        amassOut amassErr).sources
      = (performDebugAmass domain passive timeout wordlist debug timestamp
        amassOut amassErr).subdomains.length := by
  apply performDebugAmass_pres InvCount
    (fun res => res.count = res.subdomains.length ∧
      sumVals res.sources = res.subdomains.length)
    domain passive timeout wordlist debug timestamp amassOut amassErr
  · exact appendSub_invCount
  · intro r seen h
    apply runAmassOnce_pres InvCount
    · intro r seen dbg hh
      exact hh
    · intro r seen c hh
      exact hh
    · exact appendSub_invCount
    · exact h
  · rfl
  · intro st h
    exact ⟨rfl, h⟩

/-- C9 counterexample: with debug mode off, a run over an amass output
containing one parseable line leaves ParsedLines = 1 in the returned Debug
record, so not every Debug field equals its initial zero value. -/
theorem spec_c9_cex :
    (performDebugAmass ("example.com") true 300 ("") false ("ts")
        ("x.example.com") none).debug.parsedLines = 1 ∧ (1 : Nat) ≠ 0 := by
  constructor
  · decide
  · decide

/-- The debug-off frame: raw output, parse errors and the total-lines
counter stay at their initial empty values. -/
def InvDebugFrame (st : AmassResult × List String) : Prop :=
  st.1.debug.rawOutput = [] ∧ st.1.debug.parseErrors = [] ∧
  st.1.debug.totalLines = 0

/-- C9 (amended): when debug mode is off, the RawOutput, ParseErrors and
TotalLines fields of the returned Debug record keep their initial empty
values; ParsedLines, however, is counted unconditionally by the parser. -/
theorem spec_c9_debug_off (domain : String) (passive : Bool) (timeout : Nat)
    (wordlist : String) (timestamp amassOut : String)
    (amassErr : Option String) :
    (performDebugAmass domain passive timeout wordlist false timestamp
        amassOut amassErr).debug.rawOutput = [] ∧
    (performDebugAmass domain passive timeout wordlist false timestamp
        amassOut amassErr).debug.parseErrors = [] ∧
    (performDebugAmass domain passive timeout wordlist false timestamp
        amassOut amassErr).debug.totalLines = 0 := by
  apply performDebugAmass_pres InvDebugFrame
    (fun res => res.debug.rawOutput = [] ∧ res.debug.parseErrors = [] ∧
      res.debug.totalLines = 0)
    domain passive timeout wordlist false timestamp amassOut amassErr
  · intro st name source h _
    exact h
  · intro r seen h
    apply runAmassOnce_pres_nodebug InvDebugFrame
    · intro r seen n hh
      exact hh
    · intro r seen c hh
      exact hh
    · intro st name source hh _
      exact hh
    · exact h
  · exact ⟨rfl, rfl, rfl⟩
  · intro st h
    exact h

/-- The bookkeeping invariant tying the size of the seen set to the number
of entities (both start empty and grow together). -/
def InvLen (st : AmassResult × List String) : Prop :=
  st.2.length = st.1.subdomains.length

/-- A guarded append preserves the bookkeeping invariant. -/
theorem appendSub_invLen (st : AmassResult × List String)
    (name source : String) (h : InvLen st) (_ : st.2.contains name = false) :
    InvLen (appendSub st name source) := by
  unfold InvLen at h ⊢
  simp only [appendSub, List.length_append, List.length_cons, List.length_nil]
  omega

/-- Folding the indicator step over unseen, pairwise-distinct indicators
appends every indicator entity, each labeled "indicator-fallback". -/
theorem indFold_all (domain : String) :
    ∀ (inds : List String) (r : AmassResult) (seen : List String),
      inds.Nodup →
      (∀ i ∈ inds, seen.contains (i ++ "." ++ domain) = false) →
      (inds.foldl (indStep domain) (r, seen)).1.subdomains
        = r.subdomains
          ++ inds.map (fun i => ⟨i ++ "." ++ domain, [], ["indicator-fallback"]⟩) := by
  intro inds
  induction inds with
  | nil =>
    intro r seen _ _
    simp
  | cons i rest ih =>
    intro r seen hnd hns
    rw [List.foldl_cons]
    have hstep : indStep domain (r, seen) i
        = appendSub (r, seen) (i ++ "." ++ domain) ("indicator-fallback") := by
      unfold indStep
      dsimp only
      rw [hns i (List.mem_cons_self i rest)]
      simp
    rw [hstep]
    rw [ih _ _ hnd.of_cons ?hunseen]
    case hunseen =>
      intro i' hi'
      simp only [appendSub, List.contains_cons]
      rw [hns i' (List.mem_cons_of_mem _ hi')]
      simp only [Bool.or_false]
      rw [beq_eq_false_iff_ne]
      intro hcol
      have hii : i' = i := appendDot_inj _ _ _ hcol
      subst hii
      exact (List.nodup_cons.mp hnd).1 hi'
    simp [appendSub, List.append_assoc]

/-- C6: whenever the amass run contributes strictly zero entities, the
static indicator set (each common prefix joined to the target) is
substituted, and every substituted entity carries exactly the provenance
label "indicator-fallback". -/
theorem spec_c6_indicators (domain : String) (passive : Bool) (timeout : Nat)
    (wordlist : String) (debug : Bool) (timestamp amassOut : String)
    (amassErr : Option String)
    (hempty : (runAmassOnce domain passive timeout wordlist amassOut amassErr
        (initAmassResult domain passive timestamp) [] debug).1.subdomains = []) :
    (performDebugAmass domain passive timeout wordlist debug timestamp
        amassOut amassErr).subdomains
      = indicatorsList.map
          (fun i => ⟨i ++ "." ++ domain, [], ["indicator-fallback"]⟩) ∧
    ∀ e ∈ (performDebugAmass domain passive timeout wordlist debug timestamp
        amassOut amassErr).subdomains, e.sources = ["indicator-fallback"] := by
  have hlen : InvLen (runAmassOnce domain passive timeout wordlist amassOut
      amassErr (initAmassResult domain passive timestamp) [] debug) := by
    apply runAmassOnce_pres InvLen
    · intro r seen dbg hh
      exact hh
    · intro r seen c hh
      exact hh
    · exact appendSub_invLen
    · rfl
  have hmain : (performDebugAmass domain passive timeout wordlist debug
      timestamp amassOut amassErr).subdomains
      = indicatorsList.map
          (fun i => ⟨i ++ "." ++ domain, [], ["indicator-fallback"]⟩) := by
    unfold performDebugAmass
    dsimp only
    set st := runAmassOnce domain passive timeout wordlist amassOut amassErr
      (initAmassResult domain passive timestamp) [] debug with hst
    have hseen : st.2 = [] := by
      unfold InvLen at hlen
      rw [hempty, List.length_nil] at hlen
      exact List.length_eq_zero.mp hlen
    rw [hempty, List.length_nil, if_pos rfl]
    unfold fallbackIndicators
    rw [hseen]
    dsimp only
    rw [indFold_all domain indicatorsList st.1 [] (by decide)
      (fun i _ => rfl), hempty, List.nil_append]
  refine ⟨hmain, ?_⟩
  intro e he
  rw [hmain] at he
  simp only [List.mem_map] at he
  obtain ⟨i, _, hei⟩ := he
  rw [← hei]

/-- Witness for C6: an amass run with empty output yields zero entities,
and the result is exactly the labeled indicator set. -/
theorem spec_c6_indicators_w :
    (performDebugAmass ("example.com") true 300 ("") false ("ts") ("")
        none).subdomains
      = indicatorsList.map
          (fun i => ⟨i ++ "." ++ "example.com", [], ["indicator-fallback"]⟩) :=
  (spec_c6_indicators ("example.com") true 300 ("") false ("ts") ("") none
    (by decide)).1

/-- C1 counterexample: merging source "A" with entity api.example.com and
then source "B" with entities www.example.com and api.example.com leaves
api.example.com with provenance \x7bA\x7d only: the duplicate (B, api) pair
is discarded outright instead of adding B to the existing provenance set,
contradicting the claimed \x7bA,B\x7d. -/
theorem spec_c1_cex :
    (let st1 := parseAmassOut ("api.example.com") ("example.com") ("A")
       (initAmassResult ("example.com") true ("ts")) [] false
     let st2 := parseAmassOut ("www.example.com\napi.example.com")
       ("example.com") ("B") st1.1 st1.2 false
     st2.1.subdomains.map SubdomainInfo.sources) = [["A"], ["B"]]
    ∧ (["A"] : List String) ≠ ["A", "B"] := by
  constructor
  · decide
  · decide

/-- C1 (amended): for each incoming (source, entity) pair the merge
appends an unseen entity with provenance initialized to the single source;
an already-seen entity is discarded outright — only the ParsedLines counter
moves, and no provenance is added anywhere.  The scenario A = [api] then
B = [www, api] therefore yields api with sources \x7bA\x7d (not \x7bA,B\x7d)
and www with sources \x7bB\x7d, count 2. -/
theorem spec_c1_merge :
    (∀ (domain source name : String) (st : AmassResult × List String),
      goTrimSpace name = name →
      name ≠ "" →
      containsSubstr name ("The enumeration has finished") = false →
      goHasSuf name ("." ++ domain) = true →
      name ≠ domain →
      procLine domain source st name =
        (if st.2.contains name = true then
          ({ st.1 with debug := { st.1.debug with
              parsedLines := st.1.debug.parsedLines + 1 } }, st.2)
        else
          appendSub ({ st.1 with debug := { st.1.debug with
              parsedLines := st.1.debug.parsedLines + 1 } }, st.2) name source))
    ∧ (let st1 := parseAmassOut ("api.example.com") ("example.com") ("A")
         (initAmassResult ("example.com") true ("ts")) [] false
       let st2 := parseAmassOut ("www.example.com\napi.example.com")
         ("example.com") ("B") st1.1 st1.2 false
       st2.1.subdomains
         = [⟨"api.example.com", [], ["A"]⟩, ⟨"www.example.com", [], ["B"]⟩]
       ∧ st2.1.subdomains.length = 2) := by
  constructor
  · intro domain source name st h1 h2 h3 h4 h5
    by_cases hc : st.2.contains name = true
    · simp [procLine, h1, h2, h3, h4, h5, hc]
    · simp [procLine, h1, h2, h3, h4, h5, hc]
  · constructor
    · decide
    · decide

/-- Witness for C1 (amended): a fresh clean line is appended with the
single-source provenance. -/
theorem spec_c1_merge_w :
    procLine ("example.com") ("amass")
      ((initAmassResult ("example.com") true ("ts")), []) ("api.example.com")
      = appendSub
          ({ initAmassResult ("example.com") true ("ts") with
              debug := ⟨[], [], 0, 1⟩ }, []) ("api.example.com") ("amass") := by
  have h := spec_c1_merge.1 ("example.com") ("amass") ("api.example.com")
    ((initAmassResult ("example.com") true ("ts")), [])
    (by decide) (by decide) (by decide) (by decide) (by decide)
  rw [h]
  decide

/-- C3 counterexample: a target with consecutive dots passes the
validator, although the claim requires it to fail. -/
theorem spec_c3_cex : isValidDomain ("a..b.com") = true := by
  decide

/-- C3 (amended): the validator rejects the empty string, leading-hyphen
targets, and strings containing a space or tab; but it accepts consecutive
dots ("a..b.com") and non-space/tab whitespace, and target validation
guards only the per-candidate curl fallback, which skips invalid
candidates (they never influence the outcome, and every survivor is
valid). -/
theorem spec_c3_valid :
    isValidDomain ("") = false
    ∧ isValidDomain ("-bad.com") = false
    ∧ (∀ d : String, d.data.any (fun c => c = ' ' || c = '\t') = true →
        isValidDomain d = false)
    ∧ isValidDomain ("a..b.com") = true
    ∧ isValidDomain ("a\nb.com") = true
    ∧ (∀ (want : List String) (curl : String → String) (hosts : List String),
        curlFilter want curl hosts
          = curlFilter want curl (hosts.filter (fun h => isValidDomain h)))
    ∧ (∀ (want : List String) (curl : String → String) (hosts : List String)
        (h : String), h ∈ curlFilter want curl hosts → isValidDomain h = true) := by
  refine ⟨by decide, by decide, ?_, by decide, by decide, ?_, ?_⟩
  · intro d hd
    unfold isValidDomain
    rw [hd]
    simp
  · intro want curl hosts
    induction hosts with
    | nil => rfl
    | cons h hs ih =>
      by_cases hv : isValidDomain h = true
      · simp [curlFilter, hv, ih]
      · rw [Bool.not_eq_true] at hv
        simp [curlFilter, hv, ih]
  · intro want curl hosts
    induction hosts with
    | nil =>
      intro h hm
      cases hm
    | cons x hs ih =>
      intro h hm
      by_cases hv : isValidDomain x = true
      · by_cases hw : want.contains (curl x) = true
        · simp only [curlFilter, hv, hw, Bool.not_true, Bool.false_eq_true,
            if_false, if_true, List.mem_cons] at hm
          rcases hm with hm | hm
          · subst hm
            exact hv
          · exact ih h hm
        · rw [Bool.not_eq_true] at hw
          simp only [curlFilter, hv, hw, Bool.not_true, Bool.false_eq_true,
            if_false] at hm
          exact ih h hm
      · rw [Bool.not_eq_true] at hv
        simp only [curlFilter, hv, Bool.not_false, if_true] at hm
        exact ih h hm

/-- Witness for C3 (amended): a space-containing target fails validation,
and a survivor of the curl fallback is a validated domain. -/
theorem spec_c3_valid_w :
    isValidDomain ("a b.com") = false
    ∧ isValidDomain ("sub.example.com") = true := by
  constructor
  · exact spec_c3_valid.2.2.1 ("a b.com") (by decide)
  · exact spec_c3_valid.2.2.2.2.2.2 ["200"] (fun _ => ("200"))
      ["sub.example.com"] ("sub.example.com") (by decide)

/-- C4 counterexample: with theHarvester absent, the subdomain fan-out is
aborted with an error-string entity instead of advancing to the remaining
probes — even though the other probes had produced a live finding, the
result carries only the error marker. -/
theorem spec_c4_cex :
    performSubdomainEnum ("example.com") ("200,301,302,403") false true none
        ("sub.example.com") true ("https://sub.example.com [200]")
        (fun _ => ("200"))
      = ⟨"example.com", some ["error: theHarvester not in PATH"], 0⟩ := by
  decide

/-- C4 (amended): CapabilityAbsent, Timeout and ProbeFailure never surface
as a fatal error — every entry point returns an ordinary result — but the
recovery differs per entry point: the whois fallback chain advances past a
failed or empty server; a ffuf run error is recovered as an empty result;
while a missing binary aborts the subdomain fan-out with an error-string
entity instead of advancing.  The amass aggregation always completes with
status "completed". -/
theorem spec_c4_errors :
    (∀ (domain codes : String) (reconAvail : Bool) (tmpErr : Option String)
       (mergedRaw : String) (httpxAvail : Bool) (httpxOut : String)
       (curl : String → String),
       performSubdomainEnum domain codes false reconAvail tmpErr mergedRaw
           httpxAvail httpxOut curl
         = ⟨domain, some ["error: theHarvester not in PATH"], 0⟩)
    ∧ (∀ rest : List (Option String),
        fallbackWhois (none :: rest) = fallbackWhois rest)
    ∧ (∀ (raw : String) (rest : List (Option String)), goTrimSpace raw = "" →
        fallbackWhois (some raw :: rest) = fallbackWhois rest)
    ∧ (∀ domain : String, performPathBrute domain true none = ⟨domain, [], 0⟩)
    ∧ (∀ (domain : String) (passive : Bool) (timeout : Nat)
        (wordlist : String) (debug : Bool) (timestamp amassOut : String)
        (amassErr : Option String),
        (performDebugAmass domain passive timeout wordlist debug timestamp
            amassOut amassErr).status = "completed") := by
  refine ⟨?_, ?_, ?_, ?_, ?_⟩
  · intro domain codes reconAvail tmpErr mergedRaw httpxAvail httpxOut curl
    rfl
  · intro rest
    rfl
  · intro raw rest h
    simp [fallbackWhois, h]
  · intro domain
    rfl
  · intro domain passive timeout wordlist debug timestamp amassOut amassErr
    apply performDebugAmass_pres (fun _ => True)
      (fun res => res.status = "completed")
      domain passive timeout wordlist debug timestamp amassOut amassErr
    · intro _ _ _ _ _
      trivial
    · intro _ _ _
      trivial
    · trivial
    · intro st _
      rfl

/-- Witness for C4 (amended): the whois chain advances past a blank-only
server response and serves the next server's data. -/
theorem spec_c4_errors_w :
    fallbackWhois [some ("  "), some ("whois data")] = some ("whois data") := by
  rw [spec_c4_errors.2.2.1 ("  ") [some ("whois data")] (by decide)]
  decide

/-- C5 counterexample: a nonempty candidate list whose members are all
filtered out makes the cascade return the absent (`nil`) sequence, not an
explicitly empty one. -/
theorem spec_c5_cex :
    probeWithHttpx ["a.example.com"] ("200,301,302,403") false ("")
        (fun _ => ("000")) = none
    ∧ (none : Option (List String)) ≠ some [] := by
  constructor
  · decide
  · decide

/-- C5 (amended): an empty candidate sequence yields the explicitly empty
(non-nil) sequence, and the cascade never errors; but with a nonempty
candidate sequence on the curl path, the cascade returns the absent (nil)
sequence exactly when no candidate survives filtering. -/
theorem spec_c5_cascade :
    (∀ (codes : String) (httpxAvail : Bool) (httpxOut : String)
       (curl : String → String),
       probeWithHttpx [] codes httpxAvail httpxOut curl = some [])
    ∧ (∀ (hosts : List String) (codes httpxOut : String)
        (curl : String → String), hosts ≠ [] →
        (probeWithHttpx hosts codes false httpxOut curl = none
          ↔ curlFilter (wantCodes codes) curl hosts = [])) := by
  constructor
  · intro codes httpxAvail httpxOut curl
    rfl
  · intro hosts codes httpxOut curl h
    cases hosts with
    | nil => exact absurd rfl h
    | cons x xs =>
      show (probeWithCurl (x :: xs) codes curl = none ↔ _)
      unfold probeWithCurl
      dsimp only
      split
      · next he =>
        simp only [List.isEmpty_iff] at he
        simp [he]
      · next he =>
        simp only [List.isEmpty_iff] at he
        simp [he]

/-- Witness for C5 (amended): a concrete all-filtered run returns the
absent sequence. -/
theorem spec_c5_cascade_w :
    probeWithHttpx ["b.example.com"] ("200") false ("x")
        (fun _ => ("500")) = none :=
  (spec_c5_cascade.2 ["b.example.com"] ("200") ("x") (fun _ => ("500"))
    (by decide)).mpr (by decide)

/-- The first parser in an ordered list that succeeds determines the
result of `firstParse`. -/
theorem firstParse_eq_of_get :
    ∀ (l : List (String → Option GoDate)) (s : String) (k : Nat) (d : GoDate)
      (hk : k < l.length),
      (l.get ⟨k, hk⟩) s = some d →
      (∀ (j : Nat) (hj : j < k), (l.get ⟨j, by omega⟩) s = none) →
      firstParse l s = some d := by
  intro l
  induction l with
  | nil =>
    intro s k d hk
    exact absurd hk (by simp)
  | cons f fs ih =>
    intro s k d hk hget hprev
    cases k with
    | zero =>
      simp only [List.get] at hget
      unfold firstParse
      rw [hget]
    | succ k' =>
      have h0 : f s = none := hprev 0 (Nat.succ_pos k')
      unfold firstParse
      rw [h0]
      apply ih s k' d (by simpa using Nat.lt_of_succ_lt_succ hk)
      · simpa using hget
      · intro j hj
        have := hprev (j + 1) (Nat.succ_lt_succ hj)
        simpa using this

/-- C7: WHOIS date values are parsed against the ordered format list; the
first matching format wins and the normalized output is the date-only
YYYY-MM-DD rendering; when no format matches, the raw string is returned
verbatim.  The raw line "Registry Expiry Date: 2025-03-01T00:00:00Z"
normalizes ExpirationDate to "2025-03-01". -/
theorem spec_c7_dates :
    (∀ s : String, firstParse dateFormats s = none → parseDate s = s)
    ∧ (∀ (s : String) (k : Nat) (d : GoDate) (hk : k < dateFormats.length),
        (dateFormats.get ⟨k, hk⟩) s = some d →
        (∀ (j : Nat) (hj : j < k), (dateFormats.get ⟨j, by omega⟩) s = none) →
        parseDate s = formatYMD d)
    ∧ (performWhoisLookup ("example.com")
          ("Registry Expiry Date: 2025-03-01T00:00:00Z") false []
          false).expirationDate
        = "2025-03-01" := by
  refine ⟨?_, ?_, ?_⟩
  · intro s h
    unfold parseDate
    rw [h]
  · intro s k d hk hget hprev
    unfold parseDate
    rw [firstParse_eq_of_get dateFormats s k d hk hget hprev]
  · decide

/-- Witness for C7: the first format of the list parses the ISO timestamp
and is rendered as the fixed date-only format. -/
theorem spec_c7_dates_w :
    parseDate ("2025-03-01T00:00:00Z") = formatYMD ⟨2025, 3, 1⟩ := by
  apply spec_c7_dates.2.1 ("2025-03-01T00:00:00Z") 0 ⟨2025, 3, 1⟩ (by decide)
  · decide
  · intro j hj
    exact absurd hj (by omega)

set_option maxHeartbeats 2000000 in
/-- C8 counterexample: two DNSSEC lines show last-wins behavior — the
second value overwrites the first, contradicting the claimed first-wins
rule for the DNSSEC field. -/
theorem spec_c8_cex :
    (performWhoisLookup ("example.com")
        ("DNSSEC: signedDelegation\nDNSSEC: unsigned") false [] false).dnssec
      = "unsigned"
    ∧ ("unsigned" : String) ≠ "signedDelegation" := by
  constructor
  · decide
  · decide

set_option maxHeartbeats 2000000 in
/-- C8 (amended): registrar, creation, expiration and updated dates are
first-wins (a populated field is never overwritten); DNSSEC is last-wins
(a later classified line overwrites it); the list-valued name servers and
status fields use set semantics (a value already present is ignored); and
a line whose value after the first colon is empty is skipped. -/
theorem spec_c8_firstwins :
    (∀ (r : WhoisResult) (k v : String), r.registrar ≠ "" →
      (classifyLine r k v).registrar = r.registrar)
    ∧ (∀ (r : WhoisResult) (k v : String), r.creationDate ≠ "" →
        (classifyLine r k v).creationDate = r.creationDate)
    ∧ (∀ (r : WhoisResult) (k v : String), r.expirationDate ≠ "" →
        (classifyLine r k v).expirationDate = r.expirationDate)
    ∧ (∀ (r : WhoisResult) (k v : String), r.updatedDate ≠ "" →
        (classifyLine r k v).updatedDate = r.updatedDate)
    ∧ (∀ (r : WhoisResult) (v : String),
        classifyLine r ("dnssec") v = { r with dnssec := v })
    ∧ (∀ (r : WhoisResult) (k v : String), v ∈ r.nameServers →
        (classifyLine r k v).nameServers = r.nameServers)
    ∧ (∀ (r : WhoisResult) (k v : String), v ∈ r.status →
        (classifyLine r k v).status = r.status)
    ∧ (∀ (r : WhoisResult) (line : String),
        goTrimSpace (goJoin (":") (goSplitChar ':' (goTrimSpace line)).tail)
          = "" →
        whoisParseLine r line = r) := by
  refine ⟨?_, ?_, ?_, ?_, ?_, ?_, ?_, ?_⟩
  · intro r k v h
    unfold classifyLine
    split_ifs <;> simp_all
  · intro r k v h
    unfold classifyLine
    split_ifs <;> simp_all
  · intro r k v h
    unfold classifyLine
    split_ifs <;> simp_all
  · intro r k v h
    unfold classifyLine
    split_ifs <;> simp_all
  · intro r v
    have c1 : containsSubstr ("dnssec") ("registrar") = false := by decide
    have c2 : anyOf ("dnssec") ["created", "creation date", "registered on"]
      = false := by decide
    have c3 : anyOf ("dnssec")
      ["expires", "expiration", "expiry date", "registry expiry"] = false := by
      decide
    have c4 : anyOf ("dnssec") ["updated", "modified", "changed"] = false := by
      decide
    have c5 : anyOf ("dnssec") ["name server", "nserver"] = false := by decide
    have c6 : goHasPre ("dnssec") ("status") = false := by decide
    have c7 : anyOf ("dnssec") ["dnssec", "ds data"] = true := by decide
    simp [classifyLine, c1, c2, c3, c4, c5, c6, c7]
  · intro r k v h
    unfold classifyLine
    split_ifs <;> simp_all [contains_true_iff]
  · intro r k v h
    unfold classifyLine
    split_ifs <;> simp_all [contains_true_iff]
  · intro r line h
    unfold whoisParseLine
    dsimp only
    split
    · rfl
    · rfl

/-- Witness for C8 (amended): a populated registrar survives a later
registrar line, and a line with an empty value is skipped. -/
theorem spec_c8_firstwins_w :
    (classifyLine { domain := "d", registrar := "X" } ("registrar")
        ("Y")).registrar = "X"
    ∧ whoisParseLine { domain := "d" } ("Registrar:") = { domain := "d" } := by
  constructor
  · exact spec_c8_firstwins.1 { domain := "d", registrar := "X" }
      ("registrar") ("Y") (by decide)
  · exact spec_c8_firstwins.2.2.2.2.2.2.2 { domain := "d" } ("Registrar:")
      (by decide)
